import Mathlib

/-!
Shallow embedding of the chess rules engine found in
`src/gamelogic/{coordinates,pieces,moves,game}.rs`.

Rust `u8`/`i8` arithmetic is modelled over `Nat`/`Int` with the explicit
range checks performed by `checked_mul` / `checked_add_signed`.  Rust panics
(`unwrap`, `todo!`) inside fallible operations are modelled by `Option`
results; where a panic sits inside an infallible signature the branch is
noted with a comment and given the behaviour observed at the (guarded) call
sites.  `HashMap<Position, Piece>` is modelled as a function
`Position → Option Piece`, which carries the same at-most-one-piece-per-square
semantics; iteration over the map is modelled as iteration over all 64 board
squares, which is equivalent because keys are valid board positions.
-/

namespace Chess

/-- `Direction` from `coordinates.rs`: the eight compass unit vectors. -/
inductive Direction where
  | North
  | NorthEast
  | East
  | SouthEast
  | South
  | SouthWest
  | West
  | NorthWest
deriving DecidableEq

/-- `Direction::to_x_y` from `coordinates.rs`. -/
def Direction.to_x_y : Direction → Int × Int
  | .North => (0, 1)
  | .NorthEast => (1, 1)
  | .East => (1, 0)
  | .SouthEast => (1, -1)
  | .South => (0, -1)
  | .SouthWest => (-1, -1)
  | .West => (-1, 0)
  | .NorthWest => (-1, 1)

/-- `Direction::all_non_diagonal` from `coordinates.rs`. -/
def Direction.all_non_diagonal : List Direction :=
  [.North, .East, .South, .West]

/-- `Direction::all_diagonal` from `coordinates.rs`. -/
def Direction.all_diagonal : List Direction :=
  [.NorthEast, .SouthEast, .SouthWest, .NorthWest]

/-- `Direction::all` from `coordinates.rs` (non-diagonal followed by diagonal). -/
def Direction.all : List Direction :=
  Direction.all_non_diagonal ++ Direction.all_diagonal

/-- `Direction::is_same_axis` from `coordinates.rs`. -/
def Direction.is_same_axis (d o : Direction) : Bool :=
  let (x, y) := d.to_x_y
  let (xo, yo) := o.to_x_y
  decide ((x = xo ∧ y = yo) ∨ (x = -xo ∧ y = -yo))

/-- The direction whose unit vector is the negation of the argument's
(the `opposite(d)` used by the spec's round-trip property; the source has no
such function, the claim defines it). -/
def Direction.opposite : Direction → Direction
  | .North => .South
  | .NorthEast => .SouthWest
  | .East => .West
  | .SouthEast => .NorthWest
  | .South => .North
  | .SouthWest => .NorthEast
  | .West => .East
  | .NorthWest => .SouthEast

/-- `Position` from `coordinates.rs`.  The Rust struct stores `u8` fields with
the `[0,7]` invariant enforced by every constructor (`new`, `new_checked`,
`from_str`); the invariant is baked into the type here. -/
structure Position where
  x : Fin 8
  y : Fin 8
deriving DecidableEq

/-- Abbreviation for building concrete positions (file, rank), zero-based. -/
def P (x y : Fin 8) : Position := ⟨x, y⟩

/-- Rust `i8::checked_mul`: the product if it fits in `[-128, 127]`. -/
def i8_checked_mul (a b : Int) : Option Int :=
  if -128 ≤ a * b ∧ a * b ≤ 127 then some (a * b) else none

/-- Rust `u8::checked_add_signed`: the sum if it fits in `[0, 255]`. -/
def u8_checked_add_signed (x : Nat) (d : Int) : Option Nat :=
  if 0 ≤ (x : Int) + d ∧ (x : Int) + d ≤ 255 then some ((x : Int) + d).toNat else none

/-- `Position::new_checked` from `coordinates.rs`: both coordinates must lie
in `[0,7]`. -/
def Position.new_checked (x y : Nat) : Option Position :=
  if h : x ≤ 7 ∧ y ≤ 7 then
    some ⟨⟨x, Nat.lt_succ_of_le h.1⟩, ⟨y, Nat.lt_succ_of_le h.2⟩⟩
  else none

/-- `Position::moved` from `coordinates.rs`: range-checked
`origin + direction_vector * amount` (x computed first, then y, as in the
source), `none` when the multiplication leaves `i8`, the addition leaves
`u8`, or the result leaves the board. -/
def Position.moved (p : Position) (dir : Direction) (amount : Int) : Option Position :=
  (i8_checked_mul dir.to_x_y.1 amount).bind fun dx =>
  (u8_checked_add_signed p.x.val dx).bind fun x =>
  (i8_checked_mul dir.to_x_y.2 amount).bind fun dy =>
  (u8_checked_add_signed p.y.val dy).bind fun y =>
  Position.new_checked x y

/-- `PieceType` from `pieces.rs`. -/
inductive PieceType where
  | King
  | Queen
  | Rook
  | Bishop
  | Knight
  | Pawn
deriving DecidableEq

/-- `Color` from `pieces.rs`. -/
inductive Color where
  | White
  | Black
deriving DecidableEq

/-- `Color::other` from `pieces.rs`. -/
def Color.other : Color → Color
  | .White => .Black
  | .Black => .White

/-- `Piece` from `pieces.rs`. -/
structure Piece where
  piece_type : PieceType
  color : Color
  has_moved : Bool
deriving DecidableEq

/-- `Piece::new` from `pieces.rs`: `has_moved` starts out false. -/
def Piece.new (piece_type : PieceType) (color : Color) : Piece :=
  ⟨piece_type, color, false⟩

/-- `NormalMove` from `moves.rs`. -/
structure NormalMove where
  origin : Position
  destination : Position
  throwing : Option Piece
deriving DecidableEq

/-- `EnPassante` from `moves.rs`. -/
structure EnPassante where
  origin : Position
  destination : Position
  throwing : Position × Piece
deriving DecidableEq

/-- `Castling` from `moves.rs`. -/
structure Castling where
  king_origin : Position
  king_destination : Position
  rook_origin : Position
  rook_destination : Position
deriving DecidableEq

/-- `Promotion` from `moves.rs`. -/
structure Promotion where
  origin : Position
  destination : Position
  new_piece : Piece
deriving DecidableEq

/-- `Move` from `moves.rs`. -/
inductive Move where
  | NormalMove (m : NormalMove)
  | EnPassante (m : EnPassante)
  | Castling (m : Castling)
  | Promotion (m : Promotion)
deriving DecidableEq

/-- `MoveRequest` from `moves.rs`. -/
structure MoveRequest where
  origin : Position
  destination : Position
  promotion : Option Piece
deriving DecidableEq

/-- `HashMap::insert` on the board map. -/
def mapInsert (m : Position → Option Piece) (k : Position) (v : Piece) :
    Position → Option Piece :=
  fun q => if q = k then some v else m q

/-- `HashMap::remove` on the board map. -/
def mapRemove (m : Position → Option Piece) (k : Position) :
    Position → Option Piece :=
  fun q => if q = k then none else m q

/-- `Game` from `game.rs`: the sparse piece placement plus the last executed
move. -/
structure Game where
  pieces : Position → Option Piece
  last_move : Option Move

/-- The 64 board squares (the key space a `HashMap` iteration can visit). -/
def allPositions : List Position :=
  (List.finRange 8).flatMap fun x => (List.finRange 8).map fun y => P x y

/-- The 32-piece standard placement built by `Game::new` in `game.rs`
(`A1`→`(0,0)`, …, `H8`→`(7,7)`). -/
def initialPlacement : List (Position × Piece) :=
  [ (P 0 0, Piece.new .Rook .White), (P 1 0, Piece.new .Knight .White),
    (P 2 0, Piece.new .Bishop .White), (P 3 0, Piece.new .Queen .White),
    (P 4 0, Piece.new .King .White), (P 5 0, Piece.new .Bishop .White),
    (P 6 0, Piece.new .Knight .White), (P 7 0, Piece.new .Rook .White),
    (P 0 1, Piece.new .Pawn .White), (P 1 1, Piece.new .Pawn .White),
    (P 2 1, Piece.new .Pawn .White), (P 3 1, Piece.new .Pawn .White),
    (P 4 1, Piece.new .Pawn .White), (P 5 1, Piece.new .Pawn .White),
    (P 6 1, Piece.new .Pawn .White), (P 7 1, Piece.new .Pawn .White),
    (P 0 6, Piece.new .Pawn .Black), (P 1 6, Piece.new .Pawn .Black),
    (P 2 6, Piece.new .Pawn .Black), (P 3 6, Piece.new .Pawn .Black),
    (P 4 6, Piece.new .Pawn .Black), (P 5 6, Piece.new .Pawn .Black),
    (P 6 6, Piece.new .Pawn .Black), (P 7 6, Piece.new .Pawn .Black),
    (P 0 7, Piece.new .Rook .Black), (P 1 7, Piece.new .Knight .Black),
    (P 2 7, Piece.new .Bishop .Black), (P 3 7, Piece.new .Queen .Black),
    (P 4 7, Piece.new .King .Black), (P 5 7, Piece.new .Bishop .Black),
    (P 6 7, Piece.new .Knight .Black), (P 7 7, Piece.new .Rook .Black) ]

/-- `Game::new` from `game.rs`: the standard starting position, no last
move. -/
def Game.new : Game :=
  { pieces := fun pos => (initialPlacement.find? fun e => e.fst = pos).map Prod.snd,
    last_move := none }

/-- `Game::piece_at` from `game.rs`. -/
def Game.piece_at (g : Game) (pos : Position) : Option Piece :=
  g.pieces pos

/-- The destination square the active-color derivation reads off a move
(`king_destination` for castling); this is the match inside
`Game::active_color` in `game.rs`. -/
def Move.activeDestination : Move → Position
  | .NormalMove m => m.destination
  | .EnPassante m => m.destination
  | .Castling m => m.king_destination
  | .Promotion m => m.destination

/-- `Game::active_color` from `game.rs`: White if no move was played,
otherwise the opposite of the color now standing on the last move's
destination square.  The source `unwrap`s the occupant; an empty destination
square is impossible for states produced by `perform_move`, and is given the
`White` default here. -/
def Game.active_color (g : Game) : Color :=
  match g.last_move with
  | none => Color.White
  | some mov =>
    match g.piece_at mov.activeDestination with
    | some piece => piece.color.other
    | none => Color.White

/-- The board state in the middle of the castling branch of
`Game::perform_move`: the king removed from its origin and re-inserted, with
`has_moved` set, on its destination. -/
def afterKingStep (g : Game) (castling : Castling) (king : Piece) :
    Position → Option Piece :=
  mapInsert (mapRemove g.pieces castling.king_origin) castling.king_destination
    { king with has_moved := true }

/-- `Game::perform_move` from `game.rs`.  Rust panics (`unwrap` of a missing
mover, `todo!()` for promotion) are modelled as `none`. -/
def Game.perform_move (g : Game) (mov : Move) : Option Game :=
  match mov with
  | .NormalMove normal_move =>
    match g.pieces normal_move.origin with
    | none => none
    | some moving_piece =>
      some { pieces := mapInsert (mapRemove g.pieces normal_move.origin)
               normal_move.destination { moving_piece with has_moved := true },
             last_move := some mov }
  | .EnPassante en_passante =>
    match g.pieces en_passante.origin with
    | none => none
    | some moving_piece =>
      some { pieces := mapRemove (mapInsert (mapRemove g.pieces en_passante.origin)
               en_passante.destination moving_piece) en_passante.throwing.fst,
             last_move := some mov }
  | .Castling castling =>
    match g.pieces castling.king_origin with
    | none => none
    | some king =>
      match afterKingStep g castling king castling.rook_origin with
      | none => none
      | some rook =>
        some { pieces := mapInsert (mapRemove (afterKingStep g castling king)
                 castling.rook_origin) castling.rook_destination
                 { rook with has_moved := true },
               last_move := some mov }
  | .Promotion _ => none

/-- The list of on-board squares reached by walking `1..=7` steps from
`king_pos` in direction `dir` (the `(1..8).filter_map(...)` iterator of
`Game::is_king_in_check`). -/
def rayTargets (origin : Position) (dir : Direction) (max_steps : Nat) : List Position :=
  (List.range max_steps).filterMap fun (i : Nat) => origin.moved dir ((i : Int) + 1)

/-- The `try_fold` ray scan of `Game::is_king_in_check`: the first occupied
square along the ray attacks exactly when it holds an enemy piece of one of
the two given types; an empty ray (or a ray with no occupied square) does
not attack. -/
def rayCheck (g : Game) (enemy_color : Color) (t1 t2 : PieceType) :
    List Position → Bool
  | [] => false
  | pos :: rest =>
    match g.piece_at pos with
    | some piece =>
      decide (piece.piece_type = t1 ∧ piece.color = enemy_color) ||
      decide (piece.piece_type = t2 ∧ piece.color = enemy_color)
    | none => rayCheck g enemy_color t1 t2 rest

/-- `Game::is_king_in_check` from `game.rs`.  The source takes the first
piece matching King of the given color from `HashMap` iteration and
`unwrap`s it; here the 64 squares are scanned in a fixed order, and a board
with no such king (where the source panics) yields `false`. -/
def Game.is_king_in_check (g : Game) (color : Color) : Bool :=
  match allPositions.find? (fun pos =>
      match g.pieces pos with
      | some piece => decide (piece.piece_type = PieceType.King ∧ piece.color = color)
      | none => false) with
  | none => false
  | some king_pos =>
    let enemy_color := color.other
    let diag_attack := Direction.all_diagonal.any fun dir =>
      rayCheck g enemy_color .Bishop .Queen (rayTargets king_pos dir 7)
    let straight_attack := Direction.all_non_diagonal.any fun dir =>
      rayCheck g enemy_color .Rook .Queen (rayTargets king_pos dir 7)
    let knight_attack := Direction.all_non_diagonal.any fun first_dir =>
      (Direction.all_non_diagonal.filter fun second_dir =>
          ! first_dir.is_same_axis second_dir).any fun second_dir =>
        match (king_pos.moved first_dir 2).bind (fun pos => pos.moved second_dir 1) with
        | some pos =>
          match g.piece_at pos with
          | some piece => decide (piece.piece_type = PieceType.Knight ∧ piece.color = enemy_color)
          | none => false
        | none => false
    let pawn_dir := match color with
      | .White => Direction.North
      | .Black => Direction.South
    let pawn_attack := [Direction.West, Direction.East].any fun dir =>
      match (king_pos.moved pawn_dir 1).bind (fun pos => pos.moved dir 1) with
      | some pos =>
        match g.piece_at pos with
        | some piece => decide (piece.piece_type = PieceType.Pawn ∧ piece.color = enemy_color)
        | none => false
      | none => false
    let king_attack := Direction.all.any fun dir =>
      match king_pos.moved dir 1 with
      | some pos =>
        match g.piece_at pos with
        | some piece => decide (piece.piece_type = PieceType.King ∧ piece.color = enemy_color)
        | none => false
      | none => false
    diag_attack || straight_attack || knight_attack || pawn_attack || king_attack

/-- `is_valid_destination` from `moves.rs`: empty or enemy-occupied. -/
def is_valid_destination (destination : Position) (color : Color) (g : Game) : Bool :=
  match g.piece_at destination with
  | some piece => decide (color ≠ piece.color)
  | none => true

/-- `is_enemy_at_destination` from `moves.rs`. -/
def is_enemy_at_destination (destination : Position) (color : Color) (g : Game) : Bool :=
  match g.piece_at destination with
  | some piece => decide (color ≠ piece.color)
  | none => false

/-- The `try_fold` ray walk of `destinations` in `moves.rs`: collect squares
outward until a square is not a valid destination (stop before it) or holds
an enemy piece (stop after including it). -/
def slideRay (g : Game) (color : Color) (acc : List Position) :
    List Position → List Position
  | [] => acc
  | pos :: rest =>
    if is_valid_destination pos color g then
      if is_enemy_at_destination pos color g then acc ++ [pos]
      else slideRay g color (acc ++ [pos]) rest
    else acc

/-- `destinations` from `moves.rs` (sliding-piece pseudo-legal targets).
The source `unwrap`s the piece at `origin` to read its color; every call
site has already matched the piece, and an empty origin (where the source
panics) defaults the color to White here. -/
def destinations (origin : Position) (directions : List Direction)
    (max_steps : Nat) (g : Game) : List Position :=
  let color := match g.piece_at origin with
    | some piece => piece.color
    | none => Color.White
  (directions.flatMap fun dir =>
    slideRay g color [] (rayTargets origin dir max_steps)).filter
    fun pos => is_valid_destination pos color g

/-- `knight_destinations` from `moves.rs`.  Same color-`unwrap` note as
`destinations`. -/
def knight_destinations (origin : Position) (g : Game) : List Position :=
  let color := match g.piece_at origin with
    | some piece => piece.color
    | none => Color.White
  let dirs := Direction.all_non_diagonal
  (dirs.flatMap fun first_dir =>
    dirs.filterMap fun second_dir =>
      if first_dir.is_same_axis second_dir then none
      else (origin.moved first_dir 2).bind fun pos => pos.moved second_dir 1).filter
    fun pos => is_valid_destination pos color g

/-- `wrap_as_normal` from `moves.rs`. -/
def wrap_as_normal (positions : List Position) (origin : Position) (g : Game) :
    List Move :=
  positions.map fun pos =>
    Move.NormalMove ⟨origin, pos, g.piece_at pos⟩

/-- `castling_left` from `moves.rs`: westward squares must be empty down to
the rook square, which must hold an unmoved rook (no color check in the
source).  The source `unwrap`s the four westward positions; they exist for
the only origins this is called with (`E1`/`E8`), and an off-board origin
yields `none` here. -/
def castling_left (origin : Position) (g : Game) : Option Move :=
  match origin.moved .West 1, origin.moved .West 2,
      origin.moved .West 3, origin.moved .West 4 with
  | some w1, some w2, some w3, some w4 =>
    if (g.piece_at w1).isSome then none
    else if (g.piece_at w2).isSome then none
    else if (g.piece_at w3).isSome then none
    else
      match g.piece_at w4 with
      | some piece =>
        if piece.piece_type = PieceType.Rook ∧ piece.has_moved = false then
          some (Move.Castling ⟨origin, w2, w4, w1⟩)
        else none
      | none => none
  | _, _, _, _ => none

/-- `castling_right` from `moves.rs`: same as `castling_left`, eastward with
two intervening squares. -/
def castling_right (origin : Position) (g : Game) : Option Move :=
  match origin.moved .East 1, origin.moved .East 2, origin.moved .East 3 with
  | some e1, some e2, some e3 =>
    if (g.piece_at e1).isSome then none
    else if (g.piece_at e2).isSome then none
    else
      match g.piece_at e3 with
      | some piece =>
        if piece.piece_type = PieceType.Rook ∧ piece.has_moved = false then
          some (Move.Castling ⟨origin, e2, e3, e1⟩)
        else none
      | none => none
  | _, _, _ => none

/-- `castling_destinations` from `moves.rs`.  The source `unwrap`s the piece
at `origin` (guaranteed by the caller); an empty origin yields `[]` here. -/
def castling_destinations (origin : Position) (g : Game) : List Move :=
  match g.piece_at origin with
  | none => []
  | some king =>
    if king.has_moved then []
    else
      let expected_pos := match king.color with
        | .White => P 4 0
        | .Black => P 4 7
      if origin ≠ expected_pos then []
      else (castling_left origin g).toList ++ (castling_right origin g).toList

/-- The forward (one-step, and two-step when unmoved) component of
`pawn_destinations` in `moves.rs`. -/
def pawnForward (origin : Position) (g : Game) (dir : Direction)
    (has_moved : Bool) : List Move :=
  match origin.moved dir 1 with
  | some one_step_forward =>
    match g.piece_at one_step_forward with
    | none =>
      Move.NormalMove ⟨origin, one_step_forward, none⟩ ::
      (if has_moved then []
       else
         match origin.moved dir 2 with
         | some two_step_forward =>
           match g.piece_at two_step_forward with
           | none => [Move.NormalMove ⟨origin, two_step_forward, none⟩]
           | some _ => []
         | none => [])
    | some _ => []
  | none => []

/-- The diagonal-capture component of `pawn_destinations` in `moves.rs`. -/
def pawnCapture (origin : Position) (g : Game) (dir : Direction)
    (color : Color) (side_dir : Direction) : Option Move :=
  match (origin.moved dir 1).bind (fun p => p.moved side_dir 1) with
  | some forward_and_side =>
    match g.piece_at forward_and_side with
    | some piece =>
      if piece.color = color then none
      else some (Move.NormalMove ⟨origin, forward_and_side, some piece⟩)
    | none => none
  | none => none

/-- The en-passant component of `pawn_destinations` in `moves.rs`.  The
source `unwrap`s `game.last_move` under the stated safety comment; a state
with an adjacent enemy pawn but no recorded move (where the source panics)
yields no candidate here, as does the source's (unreachable) `unwrap` of the
square behind the adjacent pawn. -/
def pawnEnPassant (origin : Position) (g : Game) (dir : Direction)
    (color : Color) (side_dir : Direction) : Option Move :=
  match origin.moved side_dir 1 with
  | some side_pos =>
    match g.piece_at side_pos with
    | some piece =>
      if piece.piece_type ≠ PieceType.Pawn ∨ piece.color = color then none
      else
        match g.last_move with
        | some (Move.NormalMove normal_move) =>
          if normal_move.destination = side_pos ∧
              ((normal_move.destination.y.val : Int) -
                (normal_move.origin.y.val : Int)).natAbs = 2 then
            match side_pos.moved dir 1 with
            | some behind => some (Move.EnPassante ⟨origin, behind, (side_pos, piece)⟩)
            | none => none
          else none
        | _ => none
    | none => none
  | none => none

/-- `pawn_destinations` from `moves.rs`: forward moves, then captures, then
en-passant candidates, in source push order.  The source `unwrap`s the piece
at `origin` (guaranteed by the caller); an empty origin yields `[]` here. -/
def pawn_destinations (origin : Position) (g : Game) : List Move :=
  match g.piece_at origin with
  | none => []
  | some pawn =>
    let color := pawn.color
    let dir := match color with
      | .White => Direction.North
      | .Black => Direction.South
    pawnForward origin g dir pawn.has_moved ++
    ([Direction.West, Direction.East].filterMap fun side_dir =>
      pawnCapture origin g dir color side_dir) ++
    ([Direction.West, Direction.East].filterMap fun side_dir =>
      pawnEnPassant origin g dir color side_dir)

/-- The per-piece-type pseudo-legal candidate list built inside
`valid_destinations_with_special_cases` in `moves.rs`, before the
simulate-then-check legality filter. -/
def pseudoMoves (origin : Position) (g : Game) (piece : Piece) : List Move :=
  match piece.piece_type with
  | .King =>
    wrap_as_normal (destinations origin Direction.all 1 g) origin g ++
    castling_destinations origin g
  | .Queen => wrap_as_normal (destinations origin Direction.all 7 g) origin g
  | .Rook => wrap_as_normal (destinations origin Direction.all_non_diagonal 7 g) origin g
  | .Bishop => wrap_as_normal (destinations origin Direction.all_diagonal 7 g) origin g
  | .Knight => wrap_as_normal (knight_destinations origin g) origin g
  | .Pawn => pawn_destinations origin g

/-- `valid_destinations_with_special_cases` from `moves.rs`: pseudo-legal
candidates of the piece at `origin`, kept only when simulating them does not
leave the mover's own king in check.  The source `unwrap`s the simulated
state; `perform_move` is `some` for every generated candidate (none of them
is a `Promotion`), and a `none` simulation drops the candidate here. -/
def valid_destinations_with_special_cases (origin : Position) (g : Game) :
    List Move :=
  match g.piece_at origin with
  | none => []
  | some piece =>
    (pseudoMoves origin g piece).filter fun mov =>
      match g.perform_move mov with
      | some simulated => ! simulated.is_king_in_check piece.color
      | none => false

/-- `valid_destinations` from `moves.rs`: the legal-move set projected to
destination squares. -/
def valid_destinations (origin : Position) (g : Game) : List Position :=
  (valid_destinations_with_special_cases origin g).map fun mov =>
    match mov with
    | .NormalMove normal_move => normal_move.destination
    | .EnPassante en_passante => en_passante.destination
    | .Castling castling => castling.king_destination
    | .Promotion promotion => promotion.destination

/-- The matching predicate of `MoveRequest::to_move` in `moves.rs`. -/
def MoveRequest.matches_move (req : MoveRequest) (mov : Move) : Bool :=
  match mov with
  | .NormalMove normal_move =>
    decide (normal_move.origin = req.origin ∧ normal_move.destination = req.destination)
  | .EnPassante en_passante =>
    decide (en_passante.origin = req.origin ∧ en_passante.destination = req.destination)
  | .Castling castling =>
    decide (castling.king_origin = req.origin ∧ castling.king_destination = req.destination)
  | .Promotion promotion =>
    decide (promotion.origin = req.origin ∧ promotion.destination = req.destination ∧
      some promotion.new_piece = req.promotion)

/-- `MoveRequest::to_move` from `moves.rs`: the first legal move for the
request's origin matching the request. -/
def MoveRequest.to_move (req : MoveRequest) (g : Game) : Option Move :=
  (valid_destinations_with_special_cases req.origin g).find? req.matches_move

/-- `Game::perform_move_request` from `game.rs`: reject when the origin is
empty or not the active color's piece, otherwise resolve the request to a
legal move and apply it. -/
def Game.perform_move_request (g : Game) (move_req : MoveRequest) : Option Game :=
  if (match g.piece_at move_req.origin with
      | some piece => decide (piece.color ≠ g.active_color)
      | none => true) then none
  else (move_req.to_move g).bind g.perform_move

/-- The iterator condition of `Game::winner` in `game.rs`: every square
holding a piece of the active color has an empty legal-move set. -/
def noMovesLeft (g : Game) : Bool :=
  (allPositions.filter fun pos =>
    match g.pieces pos with
    | some piece => decide (piece.color = g.active_color)
    | none => false).all
    fun pos => decide ((valid_destinations pos g).length = 0)

/-- `Game::winner` from `game.rs`. -/
def Game.winner (g : Game) : Option Color :=
  if noMovesLeft g then some g.active_color.other else none

/-- Home rank of a king: rank 1 for White, rank 8 for Black (zero-based). -/
def homeRank : Color → Fin 8
  | .White => 0
  | .Black => 7

/-- The canonical home square of a king (`E1`/`E8`). -/
def homeSquare (c : Color) : Position := P 4 (homeRank c)

/-- The queenside castling candidate the generator emits for a king of color
`c`: king two squares west of home, rook from the A-file to the square the
king passed through. -/
def leftCastleMove (c : Color) : Move :=
  .Castling ⟨homeSquare c, P 2 (homeRank c), P 0 (homeRank c), P 3 (homeRank c)⟩

/-- The kingside castling candidate the generator emits for a king of color
`c`: king two squares east of home, rook from the H-file to the square the
king passed through. -/
def rightCastleMove (c : Color) : Move :=
  .Castling ⟨homeSquare c, P 6 (homeRank c), P 7 (homeRank c), P 5 (homeRank c)⟩

/-- Modelled from the claim's wording (amended): queenside castling side
conditions — unmoved king standing on its home square, the three squares
strictly between king and queenside rook empty, and an unmoved rook (of
either color: the source checks type and flag but not color) on the A-file
home corner. -/
def castlingCondLeft (g : Game) (origin : Position) (king : Piece) : Bool :=
  decide (king.has_moved = false ∧ origin = homeSquare king.color ∧
    g.piece_at (P 1 (homeRank king.color)) = none ∧
    g.piece_at (P 2 (homeRank king.color)) = none ∧
    g.piece_at (P 3 (homeRank king.color)) = none ∧
    (g.piece_at (P 0 (homeRank king.color))).map Piece.piece_type = some PieceType.Rook ∧
    (g.piece_at (P 0 (homeRank king.color))).map Piece.has_moved = some false)

/-- Modelled from the claim's wording (amended): kingside castling side
conditions — unmoved king on its home square, the two squares strictly
between king and kingside rook empty, and an unmoved rook (of either color)
on the H-file home corner. -/
def castlingCondRight (g : Game) (origin : Position) (king : Piece) : Bool :=
  decide (king.has_moved = false ∧ origin = homeSquare king.color ∧
    g.piece_at (P 5 (homeRank king.color)) = none ∧
    g.piece_at (P 6 (homeRank king.color)) = none ∧
    (g.piece_at (P 7 (homeRank king.color))).map Piece.piece_type = some PieceType.Rook ∧
    (g.piece_at (P 7 (homeRank king.color))).map Piece.has_moved = some false)

/-- En-passant scenario board: White king `E1`, Black king `E8`, White pawn
`E5`, Black pawn `D5`, where the immediately preceding move was the Black
pawn's two-step `D7`→`D5`. -/
def g3 : Game :=
  { pieces := fun pos =>
      if pos = P 4 0 then some ⟨.King, .White, false⟩
      else if pos = P 4 7 then some ⟨.King, .Black, false⟩
      else if pos = P 4 4 then some ⟨.Pawn, .White, true⟩
      else if pos = P 3 4 then some ⟨.Pawn, .Black, true⟩
      else none,
    last_move := some (.NormalMove ⟨P 3 6, P 3 4, none⟩) }

/-- The en-passant move `E5`→`D6` capturing the Black pawn on `D5`. -/
def epMove3 : Move := .EnPassante ⟨P 4 4, P 3 5, (P 3 4, ⟨.Pawn, .Black, true⟩)⟩

/-- Castling-color board: White king `E1` (unmoved) and a BLACK unmoved rook
on `H1`, kingside path empty. -/
def g4 : Game :=
  { pieces := fun pos =>
      if pos = P 4 0 then some ⟨.King, .White, false⟩
      else if pos = P 7 0 then some ⟨.Rook, .Black, false⟩
      else if pos = P 4 7 then some ⟨.King, .Black, false⟩
      else none,
    last_move := none }

/-- The opening double pawn push `E2`→`E4`. -/
def e2e4 : Move := .NormalMove ⟨P 4 1, P 4 3, none⟩

/-- The snapshot `perform_move` produces for `e2e4` from the starting
position. -/
def gAfterE2E4 : Game :=
  { pieces := mapInsert (mapRemove Game.new.pieces (P 4 1)) (P 4 3) ⟨.Pawn, .White, true⟩,
    last_move := some e2e4 }

/-- The request resolving to `epMove3` on `g3`. -/
def reqEp : MoveRequest := ⟨P 4 4, P 3 5, none⟩

/-- The snapshot `perform_move` produces for `epMove3` on `g3`. -/
def g3After : Game :=
  { pieces := mapRemove (mapInsert (mapRemove g3.pieces (P 4 4)) (P 3 5)
      ⟨.Pawn, .White, true⟩) (P 3 4),
    last_move := some epMove3 }

/-! ## Theorems -/

theorem opposite_to_x_y (d : Direction) :
    d.opposite.to_x_y = (-(d.to_x_y.1), -(d.to_x_y.2)) := by
  cases d <;> rfl

/-- C6: applying a Promotion move never returns a successor state: the
execution path is unimplemented (`todo!()` in the source), modelled as the
fatal `none` result of `perform_move`. -/
theorem C6_promotion_unimplemented (g : Game) (promotion : Promotion) :
    g.perform_move (Move.Promotion promotion) = none := rfl

/-- C3: with a White pawn on E5 and the Black pawn's two-step D7→D5 as the
immediately preceding move, the legal-move set for E5 contains the
en-passant move with destination D6, and applying it leaves D5 empty, puts
the White pawn on D6, and empties E5. -/
theorem C3_en_passant_capture :
    epMove3 ∈ valid_destinations_with_special_cases (P 4 4) g3 ∧
    ((g3.perform_move epMove3).map fun g2 =>
        (g2.piece_at (P 3 4), g2.piece_at (P 3 5), g2.piece_at (P 4 4))) =
      some (none, some ⟨.Pawn, .White, true⟩, none) := by
  constructor
  · decide
  · decide

/-- C4 counterexample: the claim requires the rook on the castling corner to
be of the king's own color, but the source checks only piece type and
`has_moved`.  On `g4` — White unmoved king on E1, BLACK unmoved rook on H1,
kingside path empty — a kingside castling candidate is generated even though
the corner rook is an enemy rook, so the claimed iff fails at this input. -/
theorem C4_counterexample :
    castling_destinations (P 4 0) g4 =
      [Move.Castling ⟨P 4 0, P 6 0, P 7 0, P 5 0⟩] ∧
    g4.piece_at (P 4 0) = some ⟨.King, .White, false⟩ ∧
    g4.piece_at (P 7 0) = some ⟨.Rook, .Black, false⟩ := by
  refine ⟨?_, ?_, ?_⟩ <;> decide

/-- C8: whenever `moved(p, d, n)` stays on-board, stepping back the same
amount in the opposite direction returns to `p`; the range-checked `i8`/`u8`
arithmetic never breaks the round trip because a successful forward move
pins every intermediate value into a symmetric range. -/
theorem C8_moved_opposite_roundtrip (p : Position) (d : Direction) (n : Int)
    (q : Position) (h : p.moved d n = some q) : q.moved d.opposite n = some p := by
  obtain ⟨⟨px, hpx⟩, ⟨py, hpy⟩⟩ := p
  simp only [Position.moved, i8_checked_mul, u8_checked_add_signed,
    Position.new_checked, Option.bind_eq_some, Option.ite_none_right_eq_some,
    Option.dite_none_right_eq_some, Option.some.injEq] at h
  obtain ⟨dx, ⟨hb1, rfl⟩, x, ⟨hb2, rfl⟩, dy, ⟨hb3, rfl⟩, y, ⟨hb4, rfl⟩, hle, hq⟩ := h
  subst hq
  simp only [Position.moved, opposite_to_x_y, i8_checked_mul,
    u8_checked_add_signed, Position.new_checked, Option.bind_eq_some,
    Option.ite_none_right_eq_some, Option.dite_none_right_eq_some,
    Option.some.injEq, neg_mul]
  refine ⟨-(d.to_x_y.1 * n), ⟨⟨by omega, by omega⟩, rfl⟩,
    px, ⟨⟨?_, ?_⟩, ?_⟩,
    -(d.to_x_y.2 * n), ⟨⟨by omega, by omega⟩, rfl⟩,
    py, ⟨⟨?_, ?_⟩, ?_⟩, ⟨by omega, by omega⟩, ?_⟩
  · omega
  · omega
  · omega
  · omega
  · omega
  · omega
  · congr 1

/-- C8 witness: one step north from A1 lands on A2, and the round trip in
the opposite direction returns to A1. -/
theorem C8_witness : Position.moved (P 0 1) Direction.North.opposite 1 = some (P 0 0) :=
  C8_moved_opposite_roundtrip (P 0 0) Direction.North 1 (P 0 1) (by decide)

/-- C1: every move the generator returns for a square holding a piece of
the active color survives the simulate-then-check filter: applying it via
`perform_move` succeeds and yields a state in which the mover's own king is
not in check. -/
theorem C1_no_move_leaves_own_king_in_check (g : Game) (origin : Position)
    (piece : Piece) (hpiece : g.piece_at origin = some piece)
    (_hcolor : piece.color = g.active_color) (mov : Move)
    (hmov : mov ∈ valid_destinations_with_special_cases origin g) :
    ∃ g2, g.perform_move mov = some g2 ∧ g2.is_king_in_check piece.color = false := by
  simp only [valid_destinations_with_special_cases, hpiece] at hmov
  have hpred := (List.mem_filter.mp hmov).2
  rcases hpm : g.perform_move mov with _ | g2
  · rw [hpm] at hpred
    simp at hpred
  · rw [hpm] at hpred
    exact ⟨g2, rfl, by simpa using hpred⟩

/-- C1 witness: on the starting position the White pawn move A2→A3 is
generated, applies successfully, and leaves the White king out of check. -/
theorem C1_witness :
    ∃ g2, Game.new.perform_move (Move.NormalMove ⟨P 0 1, P 0 2, none⟩) = some g2 ∧
      g2.is_king_in_check (Piece.new .Pawn .White).color = false :=
  C1_no_move_leaves_own_king_in_check Game.new (P 0 1) (Piece.new .Pawn .White)
    (by decide) (by decide) (Move.NormalMove ⟨P 0 1, P 0 2, none⟩) (by decide)

theorem mem_allPositions (pos : Position) : pos ∈ allPositions := by
  obtain ⟨x, y⟩ := pos
  simp only [allPositions, List.mem_flatMap, List.mem_map]
  exact ⟨x, List.mem_finRange x, y, List.mem_finRange y, rfl⟩

theorem noMovesLeft_iff (g : Game) :
    noMovesLeft g = true ↔
      ∀ pos piece, g.pieces pos = some piece → piece.color = g.active_color →
        valid_destinations pos g = [] := by
  unfold noMovesLeft
  rw [List.all_eq_true]
  constructor
  · intro h pos piece hp hc
    have hmem : pos ∈ allPositions.filter fun pos =>
        match g.pieces pos with
        | some piece => decide (piece.color = g.active_color)
        | none => false :=
      List.mem_filter.mpr ⟨mem_allPositions pos, by simp [hp, hc]⟩
    simpa [List.length_eq_zero] using h pos hmem
  · intro h pos hmem
    obtain ⟨_, hp⟩ := List.mem_filter.mp hmem
    rcases hq : g.pieces pos with _ | piece
    · rw [hq] at hp
      simp at hp
    · rw [hq] at hp
      simp only [decide_eq_true_eq] at hp
      simp [h pos piece hq hp]

/-- C2: `winner` announces the non-active color exactly when every square
with an active-color piece has an empty legal-move set — irrespective of
whether the active king is in check (checkmate) or not (stalemate) — and
stays `none` exactly when some active-color piece still has a legal move. -/
theorem C2_winner_iff_no_legal_moves (g : Game) :
    (g.winner = some g.active_color.other ↔
      ∀ pos piece, g.pieces pos = some piece → piece.color = g.active_color →
        valid_destinations pos g = []) ∧
    (g.winner = none ↔
      ∃ pos piece, g.pieces pos = some piece ∧ piece.color = g.active_color ∧
        valid_destinations pos g ≠ []) := by
  constructor
  · constructor
    · intro hw
      by_cases hc : noMovesLeft g
      · exact (noMovesLeft_iff g).mp hc
      · simp [Game.winner, hc] at hw
    · intro h
      simp [Game.winner, (noMovesLeft_iff g).mpr h]
  · constructor
    · intro hw
      by_cases hc : noMovesLeft g
      · simp [Game.winner, hc] at hw
      · have hnall : ¬ ∀ pos piece, g.pieces pos = some piece →
            piece.color = g.active_color → valid_destinations pos g = [] :=
          fun hall => hc ((noMovesLeft_iff g).mpr hall)
        push_neg at hnall
        exact hnall
    · rintro ⟨pos, piece, hp, hc2, hne⟩
      by_cases hc : noMovesLeft g
      · exact absurd ((noMovesLeft_iff g).mp hc pos piece hp hc2) hne
      · simp [Game.winner, hc]

/-- C5: `perform_move_request` answers `none` both when the origin square
is empty or holds a piece of the non-active color, and when no legal move
for the origin matches the request (same destination; for promotion also
the requested piece); the two causes produce the same undistinguished
result. -/
theorem C5_request_rejection (g : Game) (req : MoveRequest) :
    ((g.piece_at req.origin = none ∨
        ∃ piece, g.piece_at req.origin = some piece ∧ piece.color ≠ g.active_color) →
      g.perform_move_request req = none) ∧
    ((∀ mov ∈ valid_destinations_with_special_cases req.origin g,
        req.matches_move mov = false) →
      g.perform_move_request req = none) := by
  constructor
  · rintro (hempty | ⟨piece, hp, hc⟩)
    · simp [Game.perform_move_request, hempty]
    · simp [Game.perform_move_request, hp, hc]
  · intro h
    have ht : req.to_move g = none := by
      unfold MoveRequest.to_move
      refine List.find?_eq_none.mpr fun mov hmov => ?_
      simp [h mov hmov]
    unfold Game.perform_move_request
    rw [ht]
    simp

/-- C5 witness: requesting E3→E4 on the starting position is rejected
because E3 is empty. -/
theorem C5_witness : Game.new.perform_move_request ⟨P 4 2, P 4 3, none⟩ = none :=
  (C5_request_rejection Game.new ⟨P 4 2, P 4 3, none⟩).1 (Or.inl (by decide))

/-- C7: the `has_moved` discipline of `perform_move`.  The mover of a
Normal Move and both legs of a Castling land with `has_moved = true`; an
EnPassante carries the moving pawn's record (flag included) unchanged from
its origin square; every other surviving piece keeps its record on its
square, so a true flag is never reset. -/
theorem C7_has_moved_discipline (g g2 : Game) (mov : Move)
    (h : g.perform_move mov = some g2) :
    (∀ nm, mov = Move.NormalMove nm →
      ∃ p, g.pieces nm.origin = some p ∧
        g2.pieces nm.destination = some { p with has_moved := true } ∧
        ∀ q, q ≠ nm.origin → q ≠ nm.destination → g2.pieces q = g.pieces q) ∧
    (∀ ep, mov = Move.EnPassante ep →
      ∃ p, g.pieces ep.origin = some p ∧
        (ep.destination ≠ ep.throwing.fst → g2.pieces ep.destination = some p) ∧
        ∀ q, q ≠ ep.origin → q ≠ ep.destination → q ≠ ep.throwing.fst →
          g2.pieces q = g.pieces q) ∧
    (∀ c, mov = Move.Castling c →
      (∀ p, g2.pieces c.king_destination = some p → p.has_moved = true) ∧
      (∀ p, g2.pieces c.rook_destination = some p → p.has_moved = true) ∧
      ∀ q, q ≠ c.king_origin → q ≠ c.king_destination → q ≠ c.rook_origin →
        q ≠ c.rook_destination → g2.pieces q = g.pieces q) ∧
    (∀ q p, g2.pieces q = some p → p.has_moved = true ∨ g.pieces q = some p ∨
      ∃ ep, mov = Move.EnPassante ep ∧ q = ep.destination ∧
        g.pieces ep.origin = some p) := by
  cases mov with
  | NormalMove nm =>
    rcases hp : g.pieces nm.origin with _ | p
    · simp [Game.perform_move, hp] at h
    · simp only [Game.perform_move, hp, Option.some.injEq] at h
      subst h
      refine ⟨?_, ?_, ?_, ?_⟩
      · intro nm2 he
        obtain rfl : nm = nm2 := by injection he
        refine ⟨p, hp, by simp [mapInsert], ?_⟩
        intro q hq1 hq2
        simp [mapInsert, mapRemove, hq1, hq2]
      · intro ep he
        simp at he
      · intro c he
        simp at he
      · intro q pq hq
        simp only [mapInsert, mapRemove] at hq
        by_cases h1 : q = nm.destination
        · rw [if_pos h1] at hq
          obtain rfl := Option.some.inj hq
          exact Or.inl rfl
        · rw [if_neg h1] at hq
          by_cases h2 : q = nm.origin
          · rw [if_pos h2] at hq
            exact Option.noConfusion hq
          · rw [if_neg h2] at hq
            exact Or.inr (Or.inl hq)
  | EnPassante ep =>
    rcases hp : g.pieces ep.origin with _ | p
    · simp [Game.perform_move, hp] at h
    · simp only [Game.perform_move, hp, Option.some.injEq] at h
      subst h
      refine ⟨?_, ?_, ?_, ?_⟩
      · intro nm2 he
        simp at he
      · intro ep2 he
        obtain rfl : ep = ep2 := by injection he
        refine ⟨p, hp, ?_, ?_⟩
        · intro hne
          simp [mapInsert, mapRemove, hne]
        · intro q hq1 hq2 hq3
          simp [mapInsert, mapRemove, hq1, hq2, hq3]
      · intro c he
        simp at he
      · intro q pq hq
        simp only [mapInsert, mapRemove] at hq
        by_cases h3 : q = ep.throwing.fst
        · rw [if_pos h3] at hq
          exact Option.noConfusion hq
        · rw [if_neg h3] at hq
          by_cases h1 : q = ep.destination
          · rw [if_pos h1] at hq
            obtain rfl := Option.some.inj hq
            exact Or.inr (Or.inr ⟨ep, rfl, h1, hp⟩)
          · rw [if_neg h1] at hq
            by_cases h2 : q = ep.origin
            · rw [if_pos h2] at hq
              exact Option.noConfusion hq
            · rw [if_neg h2] at hq
              exact Or.inr (Or.inl hq)
  | Castling c =>
    rcases hk : g.pieces c.king_origin with _ | king
    · simp [Game.perform_move, hk] at h
    · rcases har : afterKingStep g c king c.rook_origin with _ | rook
      · simp [Game.perform_move, hk, har] at h
      · simp only [Game.perform_move, hk, har, Option.some.injEq] at h
        subst h
        refine ⟨?_, ?_, ?_, ?_⟩
        · intro nm2 he
          simp at he
        · intro ep2 he
          simp at he
        · intro c2 he
          obtain rfl : c = c2 := by injection he
          refine ⟨?_, ?_, ?_⟩
          · intro pq hq
            simp only [mapInsert, mapRemove, afterKingStep] at hq
            by_cases h1 : c.king_destination = c.rook_destination
            · rw [if_pos h1] at hq
              obtain rfl := Option.some.inj hq
              rfl
            · rw [if_neg h1] at hq
              by_cases h2 : c.king_destination = c.rook_origin
              · rw [if_pos h2] at hq
                exact Option.noConfusion hq
              · rw [if_neg h2] at hq
                simp only [if_true] at hq
                obtain rfl := Option.some.inj hq
                rfl
          · intro pq hq
            simp only [mapInsert, mapRemove, afterKingStep, if_true] at hq
            obtain rfl := Option.some.inj hq
            rfl
          · intro q hq1 hq2 hq3 hq4
            simp [mapInsert, mapRemove, afterKingStep, hq1, hq2, hq3, hq4]
        · intro q pq hq
          simp only [mapInsert, mapRemove, afterKingStep] at hq
          by_cases h4 : q = c.rook_destination
          · rw [if_pos h4] at hq
            obtain rfl := Option.some.inj hq
            exact Or.inl rfl
          · rw [if_neg h4] at hq
            by_cases h3 : q = c.rook_origin
            · rw [if_pos h3] at hq
              exact Option.noConfusion hq
            · rw [if_neg h3] at hq
              by_cases h2 : q = c.king_destination
              · rw [if_pos h2] at hq
                obtain rfl := Option.some.inj hq
                exact Or.inl rfl
              · rw [if_neg h2] at hq
                by_cases h1 : q = c.king_origin
                · rw [if_pos h1] at hq
                  exact Option.noConfusion hq
                · rw [if_neg h1] at hq
                  exact Or.inr (Or.inl hq)
  | Promotion pr =>
    exact Option.noConfusion h

/-- C7 witness: applying E2→E4 from the starting position puts a pawn with
`has_moved = true` on E4, while the untouched A1 rook keeps its record. -/
theorem C7_witness :
    gAfterE2E4.pieces (P 4 3) = some ⟨.Pawn, .White, true⟩ ∧
    gAfterE2E4.pieces (P 0 0) = Game.new.pieces (P 0 0) := by
  obtain ⟨hall, -, -, -⟩ :=
    C7_has_moved_discipline Game.new gAfterE2E4 e2e4 rfl
  obtain ⟨p, hp, hdest, hframe⟩ := hall ⟨P 4 1, P 4 3, none⟩ rfl
  have hpv : p = ⟨.Pawn, .White, false⟩ := by
    have : some p = some ⟨.Pawn, .White, false⟩ := by rw [← hp]; decide
    exact Option.some.inj this
  subst hpv
  exact ⟨hdest, hframe (P 0 0) (by decide) (by decide)⟩

theorem slideRay_length_le (g : Game) (color : Color) (acc l : List Position) :
    (slideRay g color acc l).length ≤ acc.length + l.length := by
  induction l generalizing acc with
  | nil => simp [slideRay]
  | cons pos rest ih =>
    simp only [slideRay]
    split_ifs with h1 h2
    · simp only [List.length_append, List.length_cons, List.length_nil]
      omega
    · have := ih (acc ++ [pos])
      simp only [List.length_append, List.length_cons, List.length_nil] at this ⊢
      omega
    · simp only [List.length_cons]
      omega

theorem rayTargets_length_le (origin : Position) (dir : Direction)
    (max_steps : Nat) : (rayTargets origin dir max_steps).length ≤ max_steps := by
  unfold rayTargets
  have h := List.length_filterMap_le
    (fun i : Nat => origin.moved dir ((i : Int) + 1)) (List.range max_steps)
  simpa using h

theorem length_flatMap_le {α β : Type} (l : List α) (f : α → List β) (k : Nat)
    (h : ∀ a, (f a).length ≤ k) : (l.flatMap f).length ≤ l.length * k := by
  induction l with
  | nil => simp
  | cons a rest ih =>
    simp only [List.flatMap_cons, List.length_append, List.length_cons]
    calc (f a).length + (rest.flatMap f).length ≤ k + rest.length * k :=
          Nat.add_le_add (h a) ih
      _ = (rest.length + 1) * k := by ring

theorem destinations_length_le (origin : Position) (dirs : List Direction)
    (max_steps : Nat) (g : Game) :
    (destinations origin dirs max_steps g).length ≤ dirs.length * max_steps := by
  unfold destinations
  refine le_trans (List.length_filter_le _ _) ?_
  refine length_flatMap_le _ _ _ fun dir => ?_
  have h1 := slideRay_length_le g (match g.piece_at origin with
    | some piece => piece.color
    | none => Color.White) [] (rayTargets origin dir max_steps)
  have h2 := rayTargets_length_le origin dir max_steps
  simp only [List.length_nil, Nat.zero_add] at h1
  omega

theorem knight_destinations_length_le (origin : Position) (g : Game) :
    (knight_destinations origin g).length ≤ 16 := by
  unfold knight_destinations
  refine le_trans (List.length_filter_le _ _) ?_
  have h := length_flatMap_le Direction.all_non_diagonal
    (fun first_dir => Direction.all_non_diagonal.filterMap fun second_dir =>
      if first_dir.is_same_axis second_dir then none
      else (origin.moved first_dir 2).bind fun pos => pos.moved second_dir 1)
    4 (fun a => by simpa using List.length_filterMap_le _ Direction.all_non_diagonal)
  simpa using h

theorem castling_destinations_length_le (origin : Position) (g : Game) :
    (castling_destinations origin g).length ≤ 2 := by
  rcases hp : g.piece_at origin with _ | king
  · simp [castling_destinations, hp]
  · simp only [castling_destinations, hp]
    have h1 : (castling_left origin g).toList.length ≤ 1 := by
      cases castling_left origin g <;> simp
    have h2 : (castling_right origin g).toList.length ≤ 1 := by
      cases castling_right origin g <;> simp
    split_ifs with hm ho
    · simp
    · simp
    · simp only [List.length_append]
      omega

theorem pawnForward_length_le (origin : Position) (g : Game) (dir : Direction)
    (has_moved : Bool) : (pawnForward origin g dir has_moved).length ≤ 2 := by
  unfold pawnForward
  split
  · split
    · simp only [List.length_cons]
      split
      · simp
      · split
        · split <;> simp
        · simp
    · simp
  · simp

theorem pawn_destinations_length_le (origin : Position) (g : Game) :
    (pawn_destinations origin g).length ≤ 6 := by
  rcases hp : g.piece_at origin with _ | pawn
  · simp [pawn_destinations, hp]
  · simp only [pawn_destinations, hp, List.length_append]
    have h1 := pawnForward_length_le origin g (match pawn.color with
      | Color.White => Direction.North
      | Color.Black => Direction.South) pawn.has_moved
    have h2 := List.length_filterMap_le (fun side_dir => pawnCapture origin g
      (match pawn.color with
        | Color.White => Direction.North
        | Color.Black => Direction.South) pawn.color side_dir)
      [Direction.West, Direction.East]
    have h3 := List.length_filterMap_le (fun side_dir => pawnEnPassant origin g
      (match pawn.color with
        | Color.White => Direction.North
        | Color.Black => Direction.South) pawn.color side_dir)
      [Direction.West, Direction.East]
    simp only [List.length_cons, List.length_nil] at h2 h3
    omega

theorem pseudoMoves_length_le (origin : Position) (g : Game) (piece : Piece) :
    (pseudoMoves origin g piece).length ≤ 56 := by
  unfold pseudoMoves
  have hall : Direction.all.length = 8 := rfl
  have hnd : Direction.all_non_diagonal.length = 4 := rfl
  have hd : Direction.all_diagonal.length = 4 := rfl
  cases piece.piece_type with
  | King =>
    simp only [List.length_append, wrap_as_normal, List.length_map]
    have h1 := destinations_length_le origin Direction.all 1 g
    have h2 := castling_destinations_length_le origin g
    omega
  | Queen =>
    simp only [wrap_as_normal, List.length_map]
    have := destinations_length_le origin Direction.all 7 g
    omega
  | Rook =>
    simp only [wrap_as_normal, List.length_map]
    have := destinations_length_le origin Direction.all_non_diagonal 7 g
    omega
  | Bishop =>
    simp only [wrap_as_normal, List.length_map]
    have := destinations_length_le origin Direction.all_diagonal 7 g
    omega
  | Knight =>
    simp only [wrap_as_normal, List.length_map]
    have := knight_destinations_length_le origin g
    omega
  | Pawn =>
    exact le_trans (pawn_destinations_length_le origin g) (by omega)

/-- C9: computing the legal-move set is a total function with a concrete
candidate bound: at most 56 pseudo-legal candidates exist per square (the
queen's 8 directions times 7 steps), each checked by one simulated
transition plus one check-detection pass; `is_king_in_check` is defined
before and independently of the generator, so the simulate-then-check step
involves no recursion back into move generation. -/
theorem C9_generator_bounded (origin : Position) (g : Game) :
    (valid_destinations_with_special_cases origin g).length ≤ 56 := by
  unfold valid_destinations_with_special_cases
  split
  · simp
  · exact le_trans (List.length_filter_le _ _) (pseudoMoves_length_le origin g _)

theorem castling_left_eq_white (g : Game) (king : Piece) (hmv : king.has_moved = false)
    (hc : king.color = Color.White) :
    (castling_left (P 4 0) g).toList =
      if castlingCondLeft g (P 4 0) king then [leftCastleMove Color.White] else [] := by
  have e1 : (P 4 0).moved Direction.West 1 = some (P 3 0) := by decide
  have e2 : (P 4 0).moved Direction.West 2 = some (P 2 0) := by decide
  have e3 : (P 4 0).moved Direction.West 3 = some (P 1 0) := by decide
  have e4 : (P 4 0).moved Direction.West 4 = some (P 0 0) := by decide
  unfold castling_left
  rw [e1, e2, e3, e4]
  rcases h0 : g.piece_at (P 3 0) with _ | p0
  · rcases h1 : g.piece_at (P 2 0) with _ | p1
    · rcases h2 : g.piece_at (P 1 0) with _ | p2
      · rcases hA : g.piece_at (P 0 0) with _ | pA
        · simp [castlingCondLeft, homeSquare, homeRank, hc, hmv, h0, h1, h2, hA]
        · by_cases hr : pA.piece_type = PieceType.Rook ∧ pA.has_moved = false
          · simp [castlingCondLeft, homeSquare, homeRank, hc, hmv, leftCastleMove, h0, h1, h2, hA, hr.1, hr.2]
          · simp [castlingCondLeft, homeSquare, homeRank, hc, hmv, h0, h1, h2, hA, hr]
      · simp [castlingCondLeft, homeSquare, homeRank, hc, hmv, h0, h1, h2]
    · simp [castlingCondLeft, homeSquare, homeRank, hc, hmv, h0, h1]
  · simp [castlingCondLeft, homeSquare, homeRank, hc, hmv, h0]

theorem castling_right_eq_white (g : Game) (king : Piece) (hmv : king.has_moved = false)
    (hc : king.color = Color.White) :
    (castling_right (P 4 0) g).toList =
      if castlingCondRight g (P 4 0) king then [rightCastleMove Color.White] else [] := by
  have e1 : (P 4 0).moved Direction.East 1 = some (P 5 0) := by decide
  have e2 : (P 4 0).moved Direction.East 2 = some (P 6 0) := by decide
  have e3 : (P 4 0).moved Direction.East 3 = some (P 7 0) := by decide
  unfold castling_right
  rw [e1, e2, e3]
  rcases h0 : g.piece_at (P 5 0) with _ | p0
  · rcases h1 : g.piece_at (P 6 0) with _ | p1
    · rcases hA : g.piece_at (P 7 0) with _ | pA
      · simp [castlingCondRight, homeSquare, homeRank, hc, hmv, h0, h1, hA]
      · by_cases hr : pA.piece_type = PieceType.Rook ∧ pA.has_moved = false
        · simp [castlingCondRight, homeSquare, homeRank, hc, hmv, rightCastleMove, h0, h1, hA, hr.1, hr.2]
        · simp [castlingCondRight, homeSquare, homeRank, hc, hmv, h0, h1, hA, hr]
    · simp [castlingCondRight, homeSquare, homeRank, hc, hmv, h0, h1]
  · simp [castlingCondRight, homeSquare, homeRank, hc, hmv, h0]

theorem castling_left_eq_black (g : Game) (king : Piece) (hmv : king.has_moved = false)
    (hc : king.color = Color.Black) :
    (castling_left (P 4 7) g).toList =
      if castlingCondLeft g (P 4 7) king then [leftCastleMove Color.Black] else [] := by
  have e1 : (P 4 7).moved Direction.West 1 = some (P 3 7) := by decide
  have e2 : (P 4 7).moved Direction.West 2 = some (P 2 7) := by decide
  have e3 : (P 4 7).moved Direction.West 3 = some (P 1 7) := by decide
  have e4 : (P 4 7).moved Direction.West 4 = some (P 0 7) := by decide
  unfold castling_left
  rw [e1, e2, e3, e4]
  rcases h0 : g.piece_at (P 3 7) with _ | p0
  · rcases h1 : g.piece_at (P 2 7) with _ | p1
    · rcases h2 : g.piece_at (P 1 7) with _ | p2
      · rcases hA : g.piece_at (P 0 7) with _ | pA
        · simp [castlingCondLeft, homeSquare, homeRank, hc, hmv, h0, h1, h2, hA]
        · by_cases hr : pA.piece_type = PieceType.Rook ∧ pA.has_moved = false
          · simp [castlingCondLeft, homeSquare, homeRank, hc, hmv, leftCastleMove, h0, h1, h2, hA, hr.1, hr.2]
          · simp [castlingCondLeft, homeSquare, homeRank, hc, hmv, h0, h1, h2, hA, hr]
      · simp [castlingCondLeft, homeSquare, homeRank, hc, hmv, h0, h1, h2]
    · simp [castlingCondLeft, homeSquare, homeRank, hc, hmv, h0, h1]
  · simp [castlingCondLeft, homeSquare, homeRank, hc, hmv, h0]

theorem castling_right_eq_black (g : Game) (king : Piece) (hmv : king.has_moved = false)
    (hc : king.color = Color.Black) :
    (castling_right (P 4 7) g).toList =
      if castlingCondRight g (P 4 7) king then [rightCastleMove Color.Black] else [] := by
  have e1 : (P 4 7).moved Direction.East 1 = some (P 5 7) := by decide
  have e2 : (P 4 7).moved Direction.East 2 = some (P 6 7) := by decide
  have e3 : (P 4 7).moved Direction.East 3 = some (P 7 7) := by decide
  unfold castling_right
  rw [e1, e2, e3]
  rcases h0 : g.piece_at (P 5 7) with _ | p0
  · rcases h1 : g.piece_at (P 6 7) with _ | p1
    · rcases hA : g.piece_at (P 7 7) with _ | pA
      · simp [castlingCondRight, homeSquare, homeRank, hc, hmv, h0, h1, hA]
      · by_cases hr : pA.piece_type = PieceType.Rook ∧ pA.has_moved = false
        · simp [castlingCondRight, homeSquare, homeRank, hc, hmv, rightCastleMove, h0, h1, hA, hr.1, hr.2]
        · simp [castlingCondRight, homeSquare, homeRank, hc, hmv, h0, h1, hA, hr]
    · simp [castlingCondRight, homeSquare, homeRank, hc, hmv, h0, h1]
  · simp [castlingCondRight, homeSquare, homeRank, hc, hmv, h0]

theorem castling_destinations_eq (g : Game) (origin : Position) (king : Piece)
    (h : g.piece_at origin = some king) :
    castling_destinations origin g =
      (if castlingCondLeft g origin king then [leftCastleMove king.color] else []) ++
      (if castlingCondRight g origin king then [rightCastleMove king.color] else []) := by
  simp only [castling_destinations, h]
  cases hmv : king.has_moved with
  | true => simp [castlingCondLeft, castlingCondRight, hmv]
  | false =>
    cases hc : king.color with
    | White =>
      dsimp only
      by_cases ho : origin = P 4 0
      · subst ho
        rw [castling_left_eq_white g king hmv hc, castling_right_eq_white g king hmv hc]
        simp
      · rw [if_pos ho]
        simp [castlingCondLeft, castlingCondRight, homeSquare, homeRank, hc, ho]
    | Black =>
      dsimp only
      by_cases ho : origin = P 4 7
      · subst ho
        rw [castling_left_eq_black g king hmv hc, castling_right_eq_black g king hmv hc]
        simp
      · rw [if_pos ho]
        simp [castlingCondLeft, castlingCondRight, homeSquare, homeRank, hc, ho]

/-- C4 (amended): a castling candidate on a given side is generated exactly
when the king is unmoved on its canonical home square, the squares strictly
between king and that side's rook corner are empty, and the corner holds an
unmoved rook — of either color, since the source never compares the rook's
color (the claim's own-color requirement fails, see the counterexample);
the emitted candidate moves the king two squares toward the rook and the
rook onto the square the king passed over, and no condition about attacked
squares is consulted. -/
theorem C4_castling_characterization (g : Game) (origin : Position)
    (king : Piece) (h : g.piece_at origin = some king)
    (_hk : king.piece_type = PieceType.King) :
    castling_destinations origin g =
      (if castlingCondLeft g origin king then [leftCastleMove king.color] else []) ++
      (if castlingCondRight g origin king then [rightCastleMove king.color] else []) :=
  castling_destinations_eq g origin king h

/-- C4 witness: on the starting position the White king is on its home
square, unmoved, but the intervening squares are occupied, so no castling
candidate is generated. -/
theorem C4_witness :
    castling_destinations (P 4 0) Game.new =
      (if castlingCondLeft Game.new (P 4 0) (Piece.new .King .White)
        then [leftCastleMove (Piece.new .King .White).color] else []) ++
      (if castlingCondRight Game.new (P 4 0) (Piece.new .King .White)
        then [rightCastleMove (Piece.new .King .White).color] else []) :=
  C4_castling_characterization Game.new (P 4 0) (Piece.new .King .White)
    (by decide) rfl

theorem moved_one_ne (p q : Position) (dir : Direction)
    (hdir : dir = Direction.North ∨ dir = Direction.South)
    (h : p.moved dir 1 = some q) : q ≠ p := by
  rcases hdir with rfl | rfl <;>
  · simp only [Position.moved, i8_checked_mul, u8_checked_add_signed,
      Position.new_checked, Direction.to_x_y, Option.bind_eq_some,
      Option.ite_none_right_eq_some, Option.dite_none_right_eq_some,
      Option.some.injEq] at h
    obtain ⟨dx, ⟨hb1, rfl⟩, x, ⟨hb2, rfl⟩, dy, ⟨hb3, rfl⟩, y, ⟨hb4, rfl⟩, hle, hq⟩ := h
    subst hq
    intro hcon
    have hy := congrArg (fun r => r.y.val) hcon
    simp only at hy
    omega

theorem mem_wrap_as_normal {mov : Move} {ps : List Position} {origin : Position}
    {g : Game} (h : mov ∈ wrap_as_normal ps origin g) :
    ∃ pos, pos ∈ ps ∧ mov = Move.NormalMove ⟨origin, pos, g.piece_at pos⟩ := by
  unfold wrap_as_normal at h
  obtain ⟨pos, hpos, rfl⟩ := List.mem_map.mp h
  exact ⟨pos, hpos, rfl⟩

theorem castling_move_squares {mov : Move} {origin : Position} {g : Game}
    (h : mov ∈ castling_destinations origin g) :
    ∃ c, mov = Move.Castling c ∧ c.king_destination ≠ c.rook_origin ∧
      c.king_destination ≠ c.rook_destination := by
  rcases hp : g.piece_at origin with _ | king
  · simp [castling_destinations, hp] at h
  · rw [castling_destinations_eq g origin king hp] at h
    rcases List.mem_append.mp h with h1 | h1 <;>
      [skip; skip] <;> split at h1 <;>
      simp only [List.mem_singleton, List.not_mem_nil] at h1 <;>
      try exact absurd h1 (by simp)
    all_goals subst h1
    all_goals cases king.color
    all_goals exact ⟨_, rfl, by decide, by decide⟩

theorem pawnForward_shape {origin : Position} {g : Game} {dir : Direction}
    {hm : Bool} {mov : Move} (h : mov ∈ pawnForward origin g dir hm) :
    ∃ nm, mov = Move.NormalMove nm := by
  unfold pawnForward at h
  split at h
  · split at h
    · rcases List.mem_cons.mp h with rfl | h2
      · exact ⟨_, rfl⟩
      · split at h2
        · simp at h2
        · split at h2
          · split at h2
            · simp only [List.mem_singleton] at h2
              exact ⟨_, h2⟩
            · simp at h2
          · simp at h2
    · simp at h
  · simp at h

theorem pawnCapture_shape {origin : Position} {g : Game} {dir side_dir : Direction}
    {color : Color} {mov : Move}
    (h : pawnCapture origin g dir color side_dir = some mov) :
    ∃ nm, mov = Move.NormalMove nm := by
  unfold pawnCapture at h
  split at h
  · split at h
    · split at h
      · exact Option.noConfusion h
      · exact ⟨_, (Option.some.inj h).symm⟩
    · exact Option.noConfusion h
  · exact Option.noConfusion h

theorem pawnEnPassant_shape {origin : Position} {g : Game} {dir side_dir : Direction}
    {color : Color} {mov : Move}
    (hdir : dir = Direction.North ∨ dir = Direction.South)
    (h : pawnEnPassant origin g dir color side_dir = some mov) :
    ∃ ep, mov = Move.EnPassante ep ∧ ep.origin = origin ∧
      ep.destination ≠ ep.throwing.fst := by
  unfold pawnEnPassant at h
  split at h
  · split at h
    · split at h
      · exact Option.noConfusion h
      · split at h
        · split at h
          · split at h
            · obtain rfl := (Option.some.inj h).symm
              rename_i behind hbehind
              exact ⟨_, rfl, rfl, moved_one_ne _ _ dir hdir hbehind⟩
            · exact Option.noConfusion h
          · exact Option.noConfusion h
        · exact Option.noConfusion h
    · exact Option.noConfusion h
  · exact Option.noConfusion h

theorem mem_pawn_destinations {mov : Move} {origin : Position} {g : Game}
    (h : mov ∈ pawn_destinations origin g) :
    (∃ nm, mov = Move.NormalMove nm) ∨
    (∃ ep, mov = Move.EnPassante ep ∧ ep.origin = origin ∧
      ep.destination ≠ ep.throwing.fst) := by
  rcases hp : g.piece_at origin with _ | pawn
  · simp [pawn_destinations, hp] at h
  · simp only [pawn_destinations, hp] at h
    rcases List.mem_append.mp h with h1 | h1
    · rcases List.mem_append.mp h1 with h2 | h2
      · exact Or.inl (pawnForward_shape h2)
      · obtain ⟨side_dir, _, hf⟩ := List.mem_filterMap.mp h2
        exact Or.inl (pawnCapture_shape hf)
    · obtain ⟨side_dir, _, hf⟩ := List.mem_filterMap.mp h1
      refine Or.inr (pawnEnPassant_shape ?_ hf)
      cases pawn.color
      · exact Or.inl rfl
      · exact Or.inr rfl

theorem ep_in_pseudoMoves_ne {ep : EnPassante} {origin : Position} {g : Game}
    {piece : Piece} (h : Move.EnPassante ep ∈ pseudoMoves origin g piece) :
    ep.destination ≠ ep.throwing.fst := by
  cases hpt : piece.piece_type <;> simp only [pseudoMoves, hpt] at h
  case King =>
    rcases List.mem_append.mp h with h1 | h1
    · obtain ⟨pos, _, heq⟩ := mem_wrap_as_normal h1
      simp at heq
    · obtain ⟨c, heq, _, _⟩ := castling_move_squares h1
      simp at heq
  case Pawn =>
    rcases mem_pawn_destinations h with ⟨nm, heq⟩ | ⟨ep2, heq, _, hne⟩
    · simp at heq
    · obtain rfl : ep = ep2 := by injection heq
      exact hne
  all_goals
    obtain ⟨pos, _, heq⟩ := mem_wrap_as_normal h
  all_goals simp at heq

theorem castling_in_pseudoMoves_squares {c : Castling} {origin : Position}
    {g : Game} {piece : Piece} (h : Move.Castling c ∈ pseudoMoves origin g piece) :
    c.king_destination ≠ c.rook_origin ∧ c.king_destination ≠ c.rook_destination := by
  cases hpt : piece.piece_type <;> simp only [pseudoMoves, hpt] at h
  case King =>
    rcases List.mem_append.mp h with h1 | h1
    · obtain ⟨pos, _, heq⟩ := mem_wrap_as_normal h1
      simp at heq
    · obtain ⟨c2, heq, hne1, hne2⟩ := castling_move_squares h1
      obtain rfl : c = c2 := by injection heq
      exact ⟨hne1, hne2⟩
  case Pawn =>
    rcases mem_pawn_destinations h with ⟨nm, heq⟩ | ⟨ep2, heq, _, _⟩ <;> simp at heq
  all_goals
    obtain ⟨pos, _, heq⟩ := mem_wrap_as_normal h
  all_goals simp at heq

theorem perform_normal_active (g g2 : Game) (nm : NormalMove) (piece : Piece)
    (hp : g.pieces nm.origin = some piece)
    (h : g.perform_move (Move.NormalMove nm) = some g2) :
    g2.active_color = piece.color.other := by
  simp only [Game.perform_move, hp, Option.some.injEq] at h
  subst h
  simp [Game.active_color, Move.activeDestination, Game.piece_at, mapInsert]

theorem perform_ep_active (g g2 : Game) (ep : EnPassante) (piece : Piece)
    (hp : g.pieces ep.origin = some piece)
    (hne : ep.destination ≠ ep.throwing.fst)
    (h : g.perform_move (Move.EnPassante ep) = some g2) :
    g2.active_color = piece.color.other := by
  simp only [Game.perform_move, hp, Option.some.injEq] at h
  subst h
  simp [Game.active_color, Move.activeDestination, Game.piece_at, mapInsert,
    mapRemove, hne]

theorem perform_castling_active (g g2 : Game) (c : Castling) (piece : Piece)
    (hp : g.pieces c.king_origin = some piece)
    (h1 : c.king_destination ≠ c.rook_origin)
    (h2 : c.king_destination ≠ c.rook_destination)
    (h : g.perform_move (Move.Castling c) = some g2) :
    g2.active_color = piece.color.other := by
  simp only [Game.perform_move, hp] at h
  rcases har : afterKingStep g c piece c.rook_origin with _ | rook
  · rw [har] at h
    simp at h
  · rw [har] at h
    simp only [Option.some.injEq] at h
    subst h
    simp [Game.active_color, Move.activeDestination, Game.piece_at, mapInsert,
      mapRemove, afterKingStep, h1, h2]

/-- C10: whenever `perform_move_request` accepts a request, the active
color of the returned snapshot is the opposite of the previous one: the
guard forces the origin piece to be of the active color, every resolved
move puts that mover on the square the active-color derivation reads, and
the derivation answers the mover's color flipped. -/
theorem C10_active_color_alternates (g g2 : Game) (req : MoveRequest)
    (h : g.perform_move_request req = some g2) :
    g2.active_color = g.active_color.other := by
  unfold Game.perform_move_request at h
  rcases hp : g.piece_at req.origin with _ | piece
  · simp only [hp] at h
    simp at h
  · simp only [hp] at h
    by_cases hcol : piece.color = g.active_color
    · rw [if_neg (by simp [hcol])] at h
      rcases hmv : req.to_move g with _ | mov
      · rw [hmv] at h
        simp at h
      · rw [hmv] at h
        simp only [Option.some_bind] at h
        have hfind : (valid_destinations_with_special_cases req.origin g).find?
            req.matches_move = some mov := hmv
        have hmem := List.mem_of_find?_eq_some hfind
        have hmatch := List.find?_some hfind
        have hmem2 : mov ∈ pseudoMoves req.origin g piece := by
          simp only [valid_destinations_with_special_cases, hp] at hmem
          exact (List.mem_filter.mp hmem).1
        rw [← hcol]
        cases mov with
        | NormalMove nm =>
          have ho : nm.origin = req.origin := by
            simp only [MoveRequest.matches_move, decide_eq_true_eq] at hmatch
            exact hmatch.1
          exact perform_normal_active g g2 nm piece (by rw [ho]; exact hp) h
        | EnPassante ep =>
          have ho : ep.origin = req.origin := by
            simp only [MoveRequest.matches_move, decide_eq_true_eq] at hmatch
            exact hmatch.1
          exact perform_ep_active g g2 ep piece (by rw [ho]; exact hp)
            (ep_in_pseudoMoves_ne hmem2) h
        | Castling c =>
          have ho : c.king_origin = req.origin := by
            simp only [MoveRequest.matches_move, decide_eq_true_eq] at hmatch
            exact hmatch.1
          obtain ⟨hne1, hne2⟩ := castling_in_pseudoMoves_squares hmem2
          exact perform_castling_active g g2 c piece (by rw [ho]; exact hp)
            hne1 hne2 h
        | Promotion pr =>
          simp [Game.perform_move] at h
    · rw [if_pos (by simp [hcol])] at h
      exact Option.noConfusion h

/-- C10 witness: accepting the en-passant request E5→D6 on `g3` (White to
move) hands the turn to Black. -/
theorem C10_witness : g3After.active_color = g3.active_color.other :=
  C10_active_color_alternates g3 g3After reqEp rfl

end Chess
